import Mathlib

/-!
# Verification of the celer-gnark GPU-accelerated Groth16 core

Shallow embedding of the Groth16 prover/verifier pipeline of the
`ingonyama-zk/celer-gnark` repository (BN254 backend with an icicle GPU
device layer), together with proofs about the embedded definitions.

The embedding covers:
* the `Verify` control flow
  (`internal/generator/backend/template/zkpschemes/groth16/groth16.verify.go.tmpl`);
* the prover's infinity filter, blinding and proof assembly, and the
  status handling of the device primitives
  (`backend/groth16/bn254/` generated prover and `goicicle_wrapper.go`);
* the `computeH` denominator broadcast;
* the `Execute` CPU work partitioner;
* a small-step scheduling model of the prover's goroutines and channels.

Elliptic curve arithmetic, pairings and the Pedersen commitment scheme are
external libraries (`gnark-crypto`, `iciclegnark`); they are modelled as
abstract operation records so that the theorems quantify over every possible
behaviour of those primitives.  The scalar field Fr is modelled as
`ZMod rScalar` with `rScalar` the order of the BN254 scalar field.
-/

namespace CelerGnark

/-- Order of the BN254 scalar field `fr` (the prime `r`). -/
def rScalar : ℕ :=
  21888242871839275222246405745257275088548364400416034343698204186575808495617

/-- The scalar field `fr.Element`, modelled as the integers modulo `r`. -/
abbrev Fr : Type := ZMod rScalar

/-! ## Verifier data model

`Proof`, `VerifyingKey` and the abstract curve operations used by `Verify`.
Group elements are kept abstract (`G1`, `G2`, `GT` type parameters): the
verifier only moves them around through the operations of `CurveOps`.
Affine and Jacobian representations are identified in the model (the
conversions `FromJacobian`/`FromAffine` carry no information the verifier
control flow depends on). -/

/-- A Groth16 proof: `Ar, Krs ∈ G1`, `Bs ∈ G2`, plus the optional Pedersen
commitment and its proof of knowledge (both `G1`). -/
structure Proof (G1 G2 : Type) where
  Ar : G1
  Krs : G1
  Bs : G2
  Commitment : G1
  CommitmentPok : G1

/-- The verifying key, as used by `Verify`.  `commitmentVerify` models
`vk.CommitmentKey.Verify` and `solveWire` models `solveCommitmentWire`;
both are external fallible functions (their code is outside this
repository), so they are carried as abstract `Except`-valued fields. -/
structure VerifyingKey (F G1 G2 GT : Type) where
  /-- `vk.e`, the precomputed pairing `e(α, β)`. -/
  e : GT
  /-- `vk.G1.K`, the public-input aggregation basis. -/
  K : List G1
  /-- `vk.G2.gammaNeg`. -/
  gammaNeg : G2
  /-- `vk.G2.deltaNeg`. -/
  deltaNeg : G2
  /-- `vk.CommitmentInfo.Is()`. -/
  commitmentIs : Bool
  /-- the wire indices `vk.CommitmentInfo.Committed[i]` for the public
  committed inputs, `i < NbPublicCommitted`. -/
  publicCommitted : List Nat
  /-- `vk.CommitmentKey.Verify` (external). -/
  commitmentVerify : G1 → G1 → Except String Unit
  /-- `solveCommitmentWire` applied to `vk.CommitmentInfo` (external). -/
  solveWire : G1 → List F → Except String F

/-- The abstract curve/pairing operations consumed by `Verify`:
subgroup membership tests, the value computed by a (succeeding) Miller
loop, the two-argument `FinalExponentiation`, the value computed by a
(succeeding) G1 multi-exponentiation, and mixed addition.  The fallible
library wrappers around `millerLoopVal` and `multiExpVal` are
`millerLoop` and `multiExp` below. -/
structure CurveOps (F G1 G2 GT : Type) where
  isInSubGroupG1 : G1 → Bool
  isInSubGroupG2 : G2 → Bool
  millerLoopVal : List G1 → List G2 → GT
  finalExp : GT → GT → GT
  multiExpVal : List G1 → List F → G1
  addMixed : G1 → G1 → G1

variable {F G1 G2 GT : Type}

/-- `curve.MillerLoop(P, Q)` (gnark-crypto, external to this repository):
it returns an error exactly when the point slices are empty or have
different lengths, and otherwise the Miller-loop value. -/
def millerLoop (ops : CurveOps F G1 G2 GT) (P : List G1) (Q : List G2) :
    Except String GT :=
  if P.length = 0 ∨ P.length ≠ Q.length then .error "invalid inputs sizes"
  else .ok (ops.millerLoopVal P Q)

/-- `G1Jac.MultiExp(points, scalars, config)` (gnark-crypto, external to
this repository): it returns an error exactly when
`len(points) != len(scalars)`, and otherwise the multi-exponentiation
value. -/
def multiExp (ops : CurveOps F G1 G2 GT) (points : List G1) (scalars : List F) :
    Except String G1 :=
  if points.length ≠ scalars.length then .error "len(points) != len(scalars)"
  else .ok (ops.multiExpVal points scalars)

/-- `proof.isValid()`: all three proof points are in the `r`-order
subgroup (`Ar`, then `Krs`, then `Bs`, as in the source). -/
def proofIsValid (ops : CurveOps F G1 G2 GT) (proof : Proof G1 G2) : Bool :=
  ops.isInSubGroupG1 proof.Ar && ops.isInSubGroupG1 proof.Krs &&
    ops.isInSubGroupG2 proof.Bs

/-- The error values returned by `Verify`. `commitmentNotVerified`,
`multiExpFailed` and `millerLoopFailed` stand for the raw errors
propagated from `vk.CommitmentKey.Verify`, `kSum.MultiExp` and
`curve.MillerLoop` respectively. -/
inductive VerifyError
  | invalidWitnessSize (got expected : Int)
  | subgroupCheckFailed
  | commitmentNotVerified (msg : String)
  | multiExpFailed (msg : String)
  | millerLoopFailed (msg : String)
  | pairingCheckFailed
  deriving DecidableEq

/-- Boolean success test on `Except`. -/
def exceptIsOk {ε α : Type} : Except ε α → Bool
  | .ok _ => true
  | .error _ => false

/-- The commitment wire extension of the public witness (`Verify`,
commitment branch, after `vk.CommitmentKey.Verify` succeeds): the solved
committed wire value is appended to the public witness when
`solveCommitmentWire` succeeds, and the witness is left unchanged when it
returns an error. -/
def extendedWitness [Inhabited F] (vk : VerifyingKey F G1 G2 GT)
    (proof : Proof G1 G2) (publicWitness : List F) : List F :=
  if vk.commitmentIs then
    match vk.solveWire proof.Commitment
        (vk.publicCommitted.map (fun idx => publicWitness.getD (idx - 1) default)) with
    | .ok res => publicWitness ++ [res]
    | .error _ => publicWitness
  else publicWitness

/-- `kSum.AddMixed(&vk.G1.K[0])` plus the optional
`kSum.AddMixed(&proof.Commitment)`, applied to the result `kSum0` of the
`MultiExp` call (template lines 73–77). -/
def verifyKSumFrom [Inhabited G1] (ops : CurveOps F G1 G2 GT)
    (vk : VerifyingKey F G1 G2 GT) (proof : Proof G1 G2) (kSum0 : G1) : G1 :=
  if vk.commitmentIs then
    ops.addMixed (ops.addMixed kSum0 (vk.K.headD default)) proof.Commitment
  else ops.addMixed kSum0 (vk.K.headD default)

/-- `kSum = Σ x_i · K[i+1] + K[0] (+ Commitment)` as computed by `Verify`
(template lines 69–80), on the success path of the `MultiExp` call. -/
def verifyKSum [Inhabited G1] (ops : CurveOps F G1 G2 GT)
    (vk : VerifyingKey F G1 G2 GT) (proof : Proof G1 G2)
    (publicWitness : List F) : G1 :=
  verifyKSumFrom ops vk proof (ops.multiExpVal vk.K.tail publicWitness)

/-- The group element compared against `vk.e` on the success path: the
final exponentiation of the product of the two Miller loops
`ML([kSum], [gammaNeg])` and `ML([Krs, Ar], [deltaNeg, Bs])`. -/
def verifyRight [Inhabited G1] (ops : CurveOps F G1 G2 GT)
    (vk : VerifyingKey F G1 G2 GT) (proof : Proof G1 G2)
    (publicWitness : List F) : GT :=
  ops.finalExp
    (ops.millerLoopVal [verifyKSum ops vk proof publicWitness] [vk.gammaNeg])
    (ops.millerLoopVal [proof.Krs, proof.Ar] [vk.deltaNeg, proof.Bs])

/-- The tail of `Verify` after the two Miller loops have been issued
(template lines 82–95): propagate an error of the second Miller loop
(`right`, line 83–85) first, then await `chDone` and propagate an error of
the asynchronous `doubleML` loop (lines 88–90), then compare the final
exponentiation against `vk.e`. -/
def verifyAwait [DecidableEq GT] (ops : CurveOps F G1 G2 GT)
    (vk : VerifyingKey F G1 G2 GT) (rightML doubleML : Except String GT) :
    Except VerifyError Unit :=
  match rightML with
  | .error msg => .error (.millerLoopFailed msg)
  | .ok right0 =>
    match doubleML with
    | .error msg => .error (.millerLoopFailed msg)
    | .ok dml =>
      if vk.e = ops.finalExp right0 dml then .ok ()
      else .error .pairingCheckFailed

/-- The public-input aggregation and pairing part of `Verify` (template
lines 68–95): `kSum.MultiExp(vk.G1.K[1:], publicWitness)` with its error
propagated (lines 70–72), the `K[0]`/commitment additions, then the two
Miller loops and the final comparison (`verifyAwait`). -/
def verifyPairingPhase [DecidableEq GT] [Inhabited F] [Inhabited G1]
    (ops : CurveOps F G1 G2 GT) (vk : VerifyingKey F G1 G2 GT)
    (proof : Proof G1 G2) (publicWitness : List F) :
    Except VerifyError Unit :=
  match multiExp ops vk.K.tail publicWitness with
  | .error msg => .error (.multiExpFailed msg)
  | .ok kSum0 =>
    verifyAwait ops vk
      (millerLoop ops [verifyKSumFrom ops vk proof kSum0] [vk.gammaNeg])
      (millerLoop ops [proof.Krs, proof.Ar] [vk.deltaNeg, proof.Bs])

/-- `Verify(proof, vk, publicWitness)` (template lines 22–99), traced from
the source:

1. the witness size check, computed over `Int` as in Go
   (`nbPublicVars := len(vk.G1.K)`, decremented when a commitment is
   present; fail when `len(publicWitness) != nbPublicVars - 1`);
2. the subgroup check `proof.isValid()`;
3. the commitment branch: `vk.CommitmentKey.Verify` (its error is
   propagated), then `solveCommitmentWire` whose error is silently
   discarded (`extendedWitness`);
4. the `kSum` multi-exponentiation and the pairing equation
   (`verifyPairingPhase`), with the errors of `kSum.MultiExp` and of both
   `curve.MillerLoop` calls propagated as in the source.  The `doubleML`
   Miller loop is started right after the subgroup check, but its error is
   only observed at the `<-chDone` await, after the `MultiExp` and
   second-Miller-loop error returns — the model checks them in that
   order. -/
def Verify [DecidableEq GT] [Inhabited F] [Inhabited G1]
    (ops : CurveOps F G1 G2 GT) (vk : VerifyingKey F G1 G2 GT)
    (proof : Proof G1 G2) (publicWitness : List F) :
    Except VerifyError Unit :=
  let nbPublicVars : Int :=
    (vk.K.length : Int) - (if vk.commitmentIs then 1 else 0)
  if (publicWitness.length : Int) ≠ nbPublicVars - 1 then
    .error (.invalidWitnessSize publicWitness.length ((vk.K.length : Int) - 1))
  else if ¬ proofIsValid ops proof then
    .error .subgroupCheckFailed
  else if vk.commitmentIs then
    match vk.commitmentVerify proof.Commitment proof.CommitmentPok with
    | .error msg => .error (.commitmentNotVerified msg)
    | .ok _ =>
      verifyPairingPhase ops vk proof (extendedWitness vk proof publicWitness)
  else
    verifyPairingPhase ops vk proof (extendedWitness vk proof publicWitness)

/-! ## Library-call and phase lemmas -/

theorem multiExp_eq_ok (ops : CurveOps F G1 G2 GT) (points : List G1)
    (scalars : List F) (hlen : points.length = scalars.length) :
    multiExp ops points scalars = .ok (ops.multiExpVal points scalars) := by
  unfold multiExp
  rw [if_neg (by simp [hlen])]

theorem multiExp_eq_error (ops : CurveOps F G1 G2 GT) (points : List G1)
    (scalars : List F) (hlen : points.length ≠ scalars.length) :
    multiExp ops points scalars = .error "len(points) != len(scalars)" := by
  unfold multiExp
  rw [if_pos hlen]

theorem millerLoop_eq_ok (ops : CurveOps F G1 G2 GT) (P : List G1) (Q : List G2)
    (h0 : P.length ≠ 0) (hlen : P.length = Q.length) :
    millerLoop ops P Q = .ok (ops.millerLoopVal P Q) := by
  unfold millerLoop
  rw [if_neg (not_or.mpr ⟨h0, not_not_intro hlen⟩)]

theorem verifyAwait_ne_invalid [DecidableEq GT] (ops : CurveOps F G1 G2 GT)
    (vk : VerifyingKey F G1 G2 GT) (r d : Except String GT) (got expected : Int) :
    verifyAwait ops vk r d ≠ .error (.invalidWitnessSize got expected) := by
  intro h
  unfold verifyAwait at h
  cases r with
  | error msg => exact VerifyError.noConfusion (Except.error.inj h)
  | ok right0 =>
    cases d with
    | error msg => exact VerifyError.noConfusion (Except.error.inj h)
    | ok dml =>
      have h' : (if vk.e = ops.finalExp right0 dml then (Except.ok () : Except VerifyError Unit)
          else .error .pairingCheckFailed) = .error (.invalidWitnessSize got expected) := h
      split at h'
      · exact Except.noConfusion h'
      · exact VerifyError.noConfusion (Except.error.inj h')

theorem verifyPairingPhase_ne_invalid [DecidableEq GT] [Inhabited F] [Inhabited G1]
    (ops : CurveOps F G1 G2 GT) (vk : VerifyingKey F G1 G2 GT)
    (proof : Proof G1 G2) (pw : List F) (got expected : Int) :
    verifyPairingPhase ops vk proof pw ≠ .error (.invalidWitnessSize got expected) := by
  intro h
  unfold verifyPairingPhase at h
  cases hme : multiExp ops vk.K.tail pw with
  | error msg =>
    rw [hme] at h
    exact VerifyError.noConfusion (Except.error.inj h)
  | ok kSum0 =>
    rw [hme] at h
    exact verifyAwait_ne_invalid ops vk _ _ got expected h

/-- When the `MultiExp` lengths match, the pairing phase reduces to the
pairing-equation decision: both Miller loops succeed (their input lists
are nonempty and of equal lengths) and the result is `ok` iff
`vk.e = verifyRight …`, else `pairing-check-failed`. -/
theorem verifyPairingPhase_decides [DecidableEq GT] [Inhabited F] [Inhabited G1]
    (ops : CurveOps F G1 G2 GT) (vk : VerifyingKey F G1 G2 GT)
    (proof : Proof G1 G2) (pw : List F)
    (hlen : vk.K.tail.length = pw.length) :
    verifyPairingPhase ops vk proof pw
      = if vk.e = verifyRight ops vk proof pw then .ok ()
        else .error .pairingCheckFailed := by
  unfold verifyPairingPhase
  rw [multiExp_eq_ok ops vk.K.tail pw hlen]
  show verifyAwait ops vk
      (millerLoop ops [verifyKSumFrom ops vk proof (ops.multiExpVal vk.K.tail pw)]
        [vk.gammaNeg])
      (millerLoop ops [proof.Krs, proof.Ar] [vk.deltaNeg, proof.Bs]) = _
  rw [millerLoop_eq_ok ops _ _ (by simp) (by simp),
    millerLoop_eq_ok ops _ _ (by simp) (by simp)]
  rfl

/-- When the `MultiExp` lengths mismatch, the pairing phase stops with the
propagated `MultiExp` error (template lines 70–72). -/
theorem verifyPairingPhase_mismatch [DecidableEq GT] [Inhabited F] [Inhabited G1]
    (ops : CurveOps F G1 G2 GT) (vk : VerifyingKey F G1 G2 GT)
    (proof : Proof G1 G2) (pw : List F)
    (hlen : vk.K.tail.length ≠ pw.length) :
    verifyPairingPhase ops vk proof pw
      = .error (.multiExpFailed "len(points) != len(scalars)") := by
  unfold verifyPairingPhase
  rw [multiExp_eq_error ops vk.K.tail pw hlen]

/-- Past the size and subgroup checks, with the commitment verification
succeeding when present, `Verify` is the pairing phase applied to the
(possibly extended) public witness. -/
theorem verify_reduces_to_phase [DecidableEq GT] [Inhabited F] [Inhabited G1]
    (ops : CurveOps F G1 G2 GT) (vk : VerifyingKey F G1 G2 GT)
    (proof : Proof G1 G2) (publicWitness : List F)
    (hsize : (publicWitness.length : Int)
        = (vk.K.length : Int) - (if vk.commitmentIs then 1 else 0) - 1)
    (hsub : proofIsValid ops proof = true)
    (hcomv : vk.commitmentIs = true →
      exceptIsOk (vk.commitmentVerify proof.Commitment proof.CommitmentPok) = true) :
    Verify ops vk proof publicWitness
      = verifyPairingPhase ops vk proof (extendedWitness vk proof publicWitness) := by
  unfold Verify
  rw [if_neg (by simpa using hsize), if_neg (by simp [hsub])]
  by_cases hci : vk.commitmentIs
  · rw [if_pos hci]
    have hok := hcomv hci
    cases hv : vk.commitmentVerify proof.Commitment proof.CommitmentPok with
    | error msg => rw [hv] at hok; exact absurd hok (by simp [exceptIsOk])
    | ok u => rfl
  · rw [if_neg hci]

/-! ## Verifier theorems -/

/-- When the witness size is correct, no later step of `Verify` ever
returns an `invalid-witness-size` error, whatever the payload. -/
theorem verify_size_ok_not_invalid [DecidableEq GT] [Inhabited F] [Inhabited G1]
    (ops : CurveOps F G1 G2 GT) (vk : VerifyingKey F G1 G2 GT)
    (proof : Proof G1 G2) (publicWitness : List F)
    (hsz : (publicWitness.length : Int)
        = (vk.K.length : Int) - (if vk.commitmentIs then 1 else 0) - 1)
    (got expected : Int) :
    Verify ops vk proof publicWitness ≠ .error (.invalidWitnessSize got expected) := by
  intro h
  unfold Verify at h
  rw [if_neg (by simpa using hsz)] at h
  by_cases hval : proofIsValid ops proof
  · rw [if_neg (by simp [hval])] at h
    by_cases hci : vk.commitmentIs
    · rw [if_pos hci] at h
      cases hv : vk.commitmentVerify proof.Commitment proof.CommitmentPok with
      | error msg =>
        rw [hv] at h
        exact VerifyError.noConfusion (Except.error.inj h)
      | ok u =>
        rw [hv] at h
        exact verifyPairingPhase_ne_invalid ops vk proof _ got expected h
    · rw [if_neg hci] at h
      exact verifyPairingPhase_ne_invalid ops vk proof _ got expected h
  · rw [if_pos (by simp [hval])] at h
    exact VerifyError.noConfusion (Except.error.inj h)

/-- **C3.** `Verify` fails with `invalid-witness-size` exactly when the
length of the public witness differs from `len(vk.G1.K) − 1`, reduced by
one more when a commitment is present; the statement quantifies over every
curve operation and proof, so the failure is decided before (and
independently of) any other verification step. -/
theorem verify_invalid_witness_size_iff [DecidableEq GT] [Inhabited F] [Inhabited G1]
    (ops : CurveOps F G1 G2 GT) (vk : VerifyingKey F G1 G2 GT)
    (proof : Proof G1 G2) (publicWitness : List F) :
    Verify ops vk proof publicWitness
        = .error (.invalidWitnessSize publicWitness.length ((vk.K.length : Int) - 1))
      ↔ (publicWitness.length : Int)
          ≠ (vk.K.length : Int) - (if vk.commitmentIs then 1 else 0) - 1 := by
  constructor
  · intro h
    intro hsz
    exact verify_size_ok_not_invalid ops vk proof publicWitness hsz _ _ h
  · intro hsz
    unfold Verify
    rw [if_pos (by simpa using hsz)]

/-- **C2.** When the public witness has the correct length, `Verify` fails
with `subgroup-check-failed` whenever any of `proof.Ar`, `proof.Krs`,
`proof.Bs` fails the subgroup membership test; the result is the same for
every Miller-loop, final-exponentiation and multi-exponentiation
operation, so no pairing computation is started before (or can influence)
this failure. -/
theorem verify_subgroup_check_first [DecidableEq GT] [Inhabited F] [Inhabited G1]
    (sub1 : G1 → Bool) (sub2 : G2 → Bool)
    (vk : VerifyingKey F G1 G2 GT) (proof : Proof G1 G2) (publicWitness : List F)
    (hsize : (publicWitness.length : Int)
        = (vk.K.length : Int) - (if vk.commitmentIs then 1 else 0) - 1)
    (hsub : sub1 proof.Ar = false ∨ sub1 proof.Krs = false ∨ sub2 proof.Bs = false) :
    ∀ (ml : List G1 → List G2 → GT) (fe : GT → GT → GT)
      (me : List G1 → List F → G1) (am : G1 → G1 → G1),
      Verify ⟨sub1, sub2, ml, fe, me, am⟩ vk proof publicWitness
        = .error .subgroupCheckFailed := by
  intro ml fe me am
  have hval : proofIsValid ⟨sub1, sub2, ml, fe, me, am⟩ proof = false := by
    rcases hsub with h | h | h <;> simp [proofIsValid, h]
  unfold Verify
  rw [if_neg (by simpa using hsize), if_pos (by simp [hval])]

/-- Trivial instantiation of the curve operations, used for concrete
witnesses: everything passes the subgroup test and all group values are
collapsed to `Unit`. -/
def okOps : CurveOps Unit Unit Unit Unit where
  isInSubGroupG1 := fun _ => true
  isInSubGroupG2 := fun _ => true
  millerLoopVal := fun _ _ => ()
  finalExp := fun _ _ => ()
  multiExpVal := fun _ _ => ()
  addMixed := fun _ _ => ()

/-- Commitment-free verifying key over the trivial instantiation. -/
def okVK : VerifyingKey Unit Unit Unit Unit where
  e := ()
  K := [()]
  gammaNeg := ()
  deltaNeg := ()
  commitmentIs := false
  publicCommitted := []
  commitmentVerify := fun _ _ => .ok ()
  solveWire := fun _ _ => .ok ()

/-- The trivial proof over the trivial instantiation. -/
def okProof : Proof Unit Unit where
  Ar := ()
  Krs := ()
  Bs := ()
  Commitment := ()
  CommitmentPok := ()

theorem verify_subgroup_check_first_witness :
    ((([] : List Unit).length : Int)
        = (okVK.K.length : Int) - (if okVK.commitmentIs then 1 else 0) - 1)
    ∧ ((fun (_ : Unit) => false) okProof.Ar = false
        ∨ (fun (_ : Unit) => false) okProof.Krs = false
        ∨ (fun (_ : Unit) => true) okProof.Bs = false)
    ∧ Verify ⟨fun _ => false, fun _ => true, fun _ _ => (), fun _ _ => (),
        fun _ _ => (), fun _ _ => ()⟩ okVK okProof []
        = .error .subgroupCheckFailed :=
  ⟨by decide, by decide,
    verify_subgroup_check_first (fun _ => false) (fun _ => true) okVK okProof []
      (by decide) (Or.inl rfl) (fun _ _ => ()) (fun _ _ => ()) (fun _ _ => ())
      (fun _ _ => ())⟩

/-- **C1 (amended).** When the witness-size and subgroup checks pass and
the commitment handling — `vk.CommitmentKey.Verify` and the
committed-wire solving — succeeds when a commitment is present, `Verify`
accepts iff the final exponentiation of the product of the two Miller
loops (`verifyRight`) equals the precomputed `vk.e`; when the equality
does not hold it fails with `pairing-check-failed`.  Under these
hypotheses the `kSum` MultiExp sees matching lengths and both Miller
loops see nonempty lists of equal lengths, so none of the propagated
library errors of `verifyPairingPhase` can occur. -/
theorem verify_pairing_check_decides [DecidableEq GT] [Inhabited F] [Inhabited G1]
    (ops : CurveOps F G1 G2 GT) (vk : VerifyingKey F G1 G2 GT)
    (proof : Proof G1 G2) (publicWitness : List F)
    (hsize : (publicWitness.length : Int)
        = (vk.K.length : Int) - (if vk.commitmentIs then 1 else 0) - 1)
    (hsub : proofIsValid ops proof = true)
    (hcom : vk.commitmentIs = true →
      exceptIsOk (vk.commitmentVerify proof.Commitment proof.CommitmentPok) = true
      ∧ exceptIsOk (vk.solveWire proof.Commitment
          (vk.publicCommitted.map (fun idx => publicWitness.getD (idx - 1) default)))
        = true) :
    (Verify ops vk proof publicWitness = .ok ()
        ↔ vk.e = verifyRight ops vk proof (extendedWitness vk proof publicWitness))
    ∧ (vk.e ≠ verifyRight ops vk proof (extendedWitness vk proof publicWitness)
        → Verify ops vk proof publicWitness = .error .pairingCheckFailed) := by
  have hred := verify_reduces_to_phase ops vk proof publicWitness hsize hsub
    (fun h => (hcom h).1)
  have hextlen : (extendedWitness vk proof publicWitness).length + 1 = vk.K.length := by
    unfold extendedWitness
    by_cases hci : vk.commitmentIs
    · rw [if_pos hci]
      obtain ⟨_, hs⟩ := hcom hci
      cases hsw : vk.solveWire proof.Commitment
          (vk.publicCommitted.map (fun idx => publicWitness.getD (idx - 1) default)) with
      | error msg => rw [hsw] at hs; exact absurd hs (by simp [exceptIsOk])
      | ok res =>
        have hs2 := hsize
        rw [if_pos hci] at hs2
        simp only [List.length_append, List.length_singleton]
        omega
    · rw [if_neg hci]
      have hs2 := hsize
      rw [if_neg hci] at hs2
      omega
  have htail : vk.K.tail.length = (extendedWitness vk proof publicWitness).length := by
    rw [List.length_tail]
    omega
  have hphase := verifyPairingPhase_decides ops vk proof
    (extendedWitness vk proof publicWitness) htail
  rw [hred, hphase]
  refine ⟨⟨?_, ?_⟩, ?_⟩
  · intro h
    by_contra he
    rw [if_neg he] at h
    exact Except.noConfusion h
  · intro he
    rw [if_pos he]
  · intro he
    rw [if_neg he]

theorem verify_pairing_check_decides_witness :
    ((([] : List Unit).length : Int)
        = (okVK.K.length : Int) - (if okVK.commitmentIs then 1 else 0) - 1)
    ∧ proofIsValid okOps okProof = true
    ∧ ((Verify okOps okVK okProof [] = .ok ()
          ↔ okVK.e = verifyRight okOps okVK okProof (extendedWitness okVK okProof []))
        ∧ (okVK.e ≠ verifyRight okOps okVK okProof (extendedWitness okVK okProof [])
            → Verify okOps okVK okProof [] = .error .pairingCheckFailed)) :=
  ⟨by decide, by decide,
    verify_pairing_check_decides okOps okVK okProof [] (by decide) (by decide)
      (fun h => by simp [okVK] at h)⟩

/-- Instantiation refuting C1 as stated: the commitment's proof of
knowledge fails to verify, so `Verify` rejects even though the pairing
equation holds. -/
def cexVK : VerifyingKey Unit Unit Unit Unit where
  e := ()
  K := [(), ()]
  gammaNeg := ()
  deltaNeg := ()
  commitmentIs := true
  publicCommitted := []
  commitmentVerify := fun _ _ => .error "pedersen verification failed"
  solveWire := fun _ _ => .ok ()

/-- **C1 counterexample.** A concrete input passing the size and subgroup
checks on which the pairing-product equality holds and yet `Verify` does
not accept (it propagates the commitment verification error instead), so
the claimed "accepts iff" equivalence is false as stated. -/
theorem verify_pairing_claim_counterexample :
    ((([] : List Unit).length : Int)
        = (cexVK.K.length : Int) - (if cexVK.commitmentIs then 1 else 0) - 1)
    ∧ proofIsValid okOps okProof = true
    ∧ cexVK.e = verifyRight okOps cexVK okProof (extendedWitness cexVK okProof [])
    ∧ Verify okOps cexVK okProof [] ≠ .ok ()
    ∧ Verify okOps cexVK okProof []
        = .error (.commitmentNotVerified "pedersen verification failed") := by
  refine ⟨by decide, by decide, rfl, ?_, rfl⟩
  intro h
  rw [show Verify okOps cexVK okProof []
      = .error (.commitmentNotVerified "pedersen verification failed") from rfl] at h
  exact Except.noConfusion h

/-- **C10.** When a commitment is present, the subgroup and size checks
pass and `vk.CommitmentKey.Verify` succeeds, an error from
`solveCommitmentWire` is silently discarded: the committed-wire value is
appended only on success, the public witness is left unextended, and
`Verify` proceeds into the public-input aggregation
(`verifyPairingPhase`) on the original witness — the solve error is never
reported.  On that path the unextended witness (length `len(K) − 2`)
mismatches `vk.G1.K[1:]` (length `len(K) − 1`), so what `Verify` actually
returns is the propagated `MultiExp` length error, not the solve
error. -/
theorem verify_solve_wire_error_ignored [DecidableEq GT] [Inhabited F] [Inhabited G1]
    (ops : CurveOps F G1 G2 GT) (vk : VerifyingKey F G1 G2 GT)
    (proof : Proof G1 G2) (publicWitness : List F) (msg : String)
    (hsize : (publicWitness.length : Int)
        = (vk.K.length : Int) - (if vk.commitmentIs then 1 else 0) - 1)
    (hsub : proofIsValid ops proof = true)
    (hci : vk.commitmentIs = true)
    (hver : vk.commitmentVerify proof.Commitment proof.CommitmentPok = .ok ())
    (hsolve : vk.solveWire proof.Commitment
        (vk.publicCommitted.map (fun idx => publicWitness.getD (idx - 1) default))
        = .error msg) :
    extendedWitness vk proof publicWitness = publicWitness
    ∧ Verify ops vk proof publicWitness
        = verifyPairingPhase ops vk proof publicWitness
    ∧ Verify ops vk proof publicWitness
        = .error (.multiExpFailed "len(points) != len(scalars)") := by
  have hext : extendedWitness vk proof publicWitness = publicWitness := by
    unfold extendedWitness
    rw [if_pos hci, hsolve]
  have hred := verify_reduces_to_phase ops vk proof publicWitness hsize hsub
    (fun _ => by rw [hver]; rfl)
  rw [hext] at hred
  have hmm : vk.K.tail.length ≠ publicWitness.length := by
    have hs2 := hsize
    rw [if_pos hci] at hs2
    rw [List.length_tail]
    omega
  refine ⟨hext, hred, ?_⟩
  rw [hred]
  exact verifyPairingPhase_mismatch ops vk proof publicWitness hmm

/-- Auxiliary data for the C10 witness: a verifying key whose committed
wire solver fails. -/
def solveFailVK : VerifyingKey Unit Unit Unit Unit where
  e := ()
  K := [(), ()]
  gammaNeg := ()
  deltaNeg := ()
  commitmentIs := true
  publicCommitted := []
  commitmentVerify := fun _ _ => .ok ()
  solveWire := fun _ _ => .error "solve failed"

theorem verify_solve_wire_error_ignored_witness :
    ((([] : List Unit).length : Int)
        = (solveFailVK.K.length : Int) - (if solveFailVK.commitmentIs then 1 else 0) - 1)
    ∧ proofIsValid okOps okProof = true
    ∧ solveFailVK.commitmentIs = true
    ∧ (extendedWitness solveFailVK okProof [] = []
        ∧ Verify okOps solveFailVK okProof []
            = verifyPairingPhase okOps solveFailVK okProof []
        ∧ Verify okOps solveFailVK okProof []
            = .error (.multiExpFailed "len(points) != len(scalars)")) :=
  ⟨by decide, by decide, by decide,
    verify_solve_wire_error_ignored okOps solveFailVK okProof [] "solve failed"
      (by decide) (by decide) (by decide) rfl rfl⟩

/-! ## Prover: the infinity filter

`Prove` copies `wireValues` into `wireValuesA`/`wireValuesB`, skipping the
indices flagged in `pk.InfinityA`/`pk.InfinityB` (generated prover,
lines 124–145).  The Go loop allocates a slice of length
`len(wireValues) − NbInfinity` and fills it with a two-index loop that
reads `Infinity[i]` and `wireValues[i]`; an out-of-bounds read (which in
Go would panic) is modelled as `none`.  The loop is element-agnostic, so
it is embedded generically; in the source the elements are
`fr.Element`. -/

/-- The filtering loop of `Prove`: `target` is the length of the
destination slice (`len(wireValues) − NbInfinity`); the loop runs until
the destination is full, skipping flagged indices.  `none` models a Go
index-out-of-range panic. -/
def filterInfinityLoop {α : Type} : List α → List Bool → Nat → Option (List α)
  | _, _, 0 => some []
  | [], _, _ + 1 => none
  | _ :: _, [], _ + 1 => none
  | x :: wv, b :: inf, k + 1 =>
    if b then filterInfinityLoop wv inf (k + 1)
    else (filterInfinityLoop wv inf k).map (x :: ·)

/-- The specification value of the filter: the entries of `wv` whose flag
is `false`, in their original relative order. -/
def unflaggedEntries {α : Type} (wv : List α) (inf : List Bool) : List α :=
  ((wv.zip inf).filter (fun p => !p.2)).map Prod.fst

theorem unflaggedEntries_nil {α : Type} : unflaggedEntries ([] : List α) [] = [] := rfl

theorem unflaggedEntries_cons_true {α : Type} (x : α) (wv : List α) (inf : List Bool) :
    unflaggedEntries (x :: wv) (true :: inf) = unflaggedEntries wv inf := by
  simp [unflaggedEntries]

theorem unflaggedEntries_cons_false {α : Type} (x : α) (wv : List α) (inf : List Bool) :
    unflaggedEntries (x :: wv) (false :: inf) = x :: unflaggedEntries wv inf := by
  simp [unflaggedEntries]

theorem unflaggedEntries_length {α : Type} :
    ∀ (wv : List α) (inf : List Bool), inf.length = wv.length →
      (unflaggedEntries wv inf).length = wv.length - inf.count true
  | [], [], _ => rfl
  | x :: wv, b :: inf, hlen => by
    have hlen' : inf.length = wv.length := by simpa using hlen
    have hcount : inf.count true ≤ wv.length := hlen' ▸ List.count_le_length true inf
    have ih := unflaggedEntries_length wv inf hlen'
    cases b with
    | true =>
      have hc : (true :: inf).count true = inf.count true + 1 := by simp
      rw [unflaggedEntries_cons_true, ih, List.length_cons, hc]
      omega
    | false =>
      have hc : (false :: inf).count true = inf.count true := by simp
      rw [unflaggedEntries_cons_false, List.length_cons, List.length_cons, hc, ih]
      omega

theorem filterInfinityLoop_eq_unflagged {α : Type} :
    ∀ (wv : List α) (inf : List Bool), inf.length = wv.length →
      filterInfinityLoop wv inf (unflaggedEntries wv inf).length
        = some (unflaggedEntries wv inf)
  | [], [], _ => rfl
  | x :: wv, b :: inf, hlen => by
    have hlen' : inf.length = wv.length := by simpa using hlen
    have ih := filterInfinityLoop_eq_unflagged wv inf hlen'
    cases b with
    | true =>
      rw [unflaggedEntries_cons_true]
      cases hk : (unflaggedEntries wv inf).length with
      | zero =>
        have : unflaggedEntries wv inf = [] := List.length_eq_zero.mp hk
        rw [this]
        rfl
      | succ k =>
        show filterInfinityLoop (x :: wv) (true :: inf) (k + 1) = _
        rw [show filterInfinityLoop (x :: wv) (true :: inf) (k + 1)
            = filterInfinityLoop wv inf (k + 1) from if_pos rfl]
        rw [← hk]
        exact ih
    | false =>
      rw [unflaggedEntries_cons_false]
      show filterInfinityLoop (x :: wv) (false :: inf)
          ((unflaggedEntries wv inf).length + 1) = _
      rw [show filterInfinityLoop (x :: wv) (false :: inf)
            ((unflaggedEntries wv inf).length + 1)
          = (filterInfinityLoop wv inf (unflaggedEntries wv inf).length).map (x :: ·)
          from if_neg (by simp)]
      rw [ih]
      rfl

/-- **C5.** For a well-formed proving key (`Infinity` bitmap as long as the
wire vector, `NbInfinity` equal to the number of flagged indices), the
prover's infinity filter produces exactly the unflagged entries of
`wireValues`, in their original relative order, and the result has length
`len(wireValues) − NbInfinity`.  The same loop is used for the A and the B
side. -/
theorem prove_infinity_filter_correct {α : Type} (wireValues : List α)
    (infinity : List Bool) (nbInfinity : Nat)
    (hlen : infinity.length = wireValues.length)
    (hcount : nbInfinity = infinity.count true) :
    filterInfinityLoop wireValues infinity (wireValues.length - nbInfinity)
      = some (unflaggedEntries wireValues infinity)
    ∧ (unflaggedEntries wireValues infinity).length
        = wireValues.length - nbInfinity := by
  subst hcount
  have hl := unflaggedEntries_length wireValues infinity hlen
  exact ⟨hl ▸ filterInfinityLoop_eq_unflagged wireValues infinity hlen, hl⟩

theorem prove_infinity_filter_correct_witness :
    (([false, true, false] : List Bool).length = ([5, 7, 11] : List Fr).length
      ∧ (1 : Nat) = ([false, true, false] : List Bool).count true)
    ∧ (filterInfinityLoop ([5, 7, 11] : List Fr) [false, true, false]
          (([5, 7, 11] : List Fr).length - 1)
        = some (unflaggedEntries [5, 7, 11] [false, true, false])
      ∧ (unflaggedEntries ([5, 7, 11] : List Fr) [false, true, false]).length
          = ([5, 7, 11] : List Fr).length - 1) :=
  ⟨⟨by decide, by decide⟩,
    prove_infinity_filter_correct [5, 7, 11] [false, true, false] 1 (by decide) (by decide)⟩

/-! ## computeH: denominator and its broadcast

`computeH` (generated prover, lines 383–399) computes
`den = (g^n − 1)⁻¹` on the host, then builds a host array holding `den`
in every slot by repeated self-append (`log2Size` doublings of `[den]`,
then `n − 2^log2Size` extra appends) and copies `n` elements of it to the
device. -/

/-- `denI.Exp(g, n); denI.Sub(denI, 1); denI.Inverse(denI)`: the
denominator `(g^n − 1)⁻¹` of the coset-evaluated vanishing polynomial. -/
def computeDen (g : Fr) (cardinality : Nat) : Fr := (g ^ cardinality - 1)⁻¹

/-- The doubling loop `for i < k { arr = append(arr, arr...) }`. -/
def appendDoubling {α : Type} (l : List α) : Nat → List α
  | 0 => l
  | k + 1 => appendDoubling (l ++ l) k

/-- The host array broadcast to the device: `[den]` doubled
`⌊log2 n⌋` times, then `n − 2^⌊log2 n⌋` single appends of `den`. -/
def denBroadcast (den : Fr) (n : Nat) : List Fr :=
  appendDoubling [den] (Nat.log2 n) ++ List.replicate (n - 2 ^ Nat.log2 n) den

theorem appendDoubling_length {α : Type} :
    ∀ (k : Nat) (l : List α), (appendDoubling l k).length = l.length * 2 ^ k
  | 0, l => by simp [appendDoubling]
  | k + 1, l => by
    rw [appendDoubling, appendDoubling_length k (l ++ l)]
    simp [List.length_append]
    ring

theorem appendDoubling_mem {α : Type} :
    ∀ (k : Nat) (l : List α) (x : α), x ∈ appendDoubling l k → x ∈ l
  | 0, l, x, hx => hx
  | k + 1, l, x, hx => by
    have := appendDoubling_mem k (l ++ l) x hx
    simpa using this

/-- **C8.** In `computeH`, the denominator equals the `Fr` inverse of
`g^n − 1` (with `g` the coset multiplicative generator and
`n = domain.Cardinality ≥ 1`), and the broadcast array copied to the
device contains exactly `n` entries, each equal to that denominator. -/
theorem computeH_den_broadcast (g : Fr) (n : Nat) (hn : 1 ≤ n) :
    computeDen g n = (g ^ n - 1)⁻¹
    ∧ (denBroadcast (computeDen g n) n).length = n
    ∧ ∀ x ∈ denBroadcast (computeDen g n) n, x = computeDen g n := by
  have hpow : 2 ^ Nat.log2 n ≤ n := by
    rw [Nat.log2_eq_log_two]
    exact Nat.pow_log_le_self 2 (by omega)
  refine ⟨rfl, ?_, ?_⟩
  · rw [denBroadcast, List.length_append, appendDoubling_length, List.length_replicate]
    simp only [List.length_singleton, one_mul]
    omega
  · intro x hx
    rw [denBroadcast, List.mem_append] at hx
    rcases hx with hx | hx
    · have := appendDoubling_mem _ _ _ hx
      simpa using this
    · exact List.eq_of_mem_replicate hx

theorem computeH_den_broadcast_witness :
    1 ≤ 8
    ∧ (computeDen 5 8 = ((5 : Fr) ^ 8 - 1)⁻¹
        ∧ (denBroadcast (computeDen 5 8) 8).length = 8
        ∧ ∀ x ∈ denBroadcast (computeDen 5 8) 8, x = computeDen 5 8) :=
  ⟨by decide, computeH_den_broadcast 5 8 (by decide)⟩

/-! ## Prover: blinding randomness and proof assembly

`Prove` samples `r, s`, derives `kr`, batch-multiplies `δ`, and combines
the four G1 MSM results into `ar`, `bs1` and `krs` (generated prover,
lines 147–262).  `G` is an abstract `r`-torsion commutative group (the
`r`-order subgroup `G1`), with the `Fr`-action standing for
`ScalarMultiplication` by the canonical lift of an `fr.Element`;
Jacobian/affine conversions are identities of the model. -/

/-- `curve.BatchScalarMultiplicationG1(&base, scalars)`: one batch scalar
multiplication on a single base point. -/
def batchScalarMultiplicationG1 {G : Type} [AddCommGroup G] [Module Fr G]
    (base : G) (scalars : List Fr) : List G :=
  scalars.map (fun k => k • base)

/-- `_kr.Mul(&_r, &_s).Neg(&_kr)`: the third blinding scalar. -/
def proveKr (r s : Fr) : Fr := -(r * s)

/-- The G1 part of the proving key used by the assembly. -/
structure PkG1 (G : Type) where
  Alpha : G
  Beta : G
  Delta : G

/-- The four G1 multi-scalar-multiplication results consumed by the
assembly (`MsmOnDevice` outputs; abstract values here). -/
structure MsmResults (G : Type) where
  bs1Msm : G
  arMsm : G
  krs2Msm : G
  krsMsm : G

/-- The proof assembly of `Prove`: `deltas = [r·δ, s·δ, kr·δ]` from one
batch scalar multiplication, then
`bs1 = Bs₁ + β + deltas[1]`, `ar = Ar₁ + α + deltas[0]`, and
`krs = Krs + deltas[2] + Krs₂ + s·ar + r·bs1`, exactly in the source's
order of additions.  Returns `(ar, bs1, krs)`. -/
def proveAssembly {G : Type} [AddCommGroup G] [Module Fr G]
    (pk : PkG1 G) (r s : Fr) (m : MsmResults G) : G × G × G :=
  let kr := proveKr r s
  let deltas := batchScalarMultiplicationG1 pk.Delta [r, s, kr]
  let bs1 := m.bs1Msm + pk.Beta + deltas.getD 1 0
  let ar := m.arMsm + pk.Alpha + deltas.getD 0 0
  let krs := m.krsMsm + deltas.getD 2 0 + m.krs2Msm + s • ar + r • bs1
  (ar, bs1, krs)

/-- **C6.** In `Prove` the blinding scalar `kr` equals `−(r·s)` in `Fr`,
the batch scalar multiplication on `δ` yields `[r·δ, s·δ, kr·δ]`, and the
final `Krs` proof element equals
`Krs + kr·δ + Krs₂ + s·ar + r·bs₁` where `ar` and `bs₁` are the
already-blinded accumulators produced by the same assembly. -/
theorem prove_krs_assembly {G : Type} [AddCommGroup G] [Module Fr G]
    (pk : PkG1 G) (r s : Fr) (m : MsmResults G) :
    proveKr r s = -(r * s)
    ∧ batchScalarMultiplicationG1 pk.Delta [r, s, proveKr r s]
        = [r • pk.Delta, s • pk.Delta, proveKr r s • pk.Delta]
    ∧ (proveAssembly pk r s m).2.2
        = m.krsMsm + proveKr r s • pk.Delta + m.krs2Msm
          + s • (proveAssembly pk r s m).1 + r • (proveAssembly pk r s m).2.1 :=
  ⟨rfl, rfl, rfl⟩

/-! ## The Execute work partitioner

`Execute(nbIterations, work, maxCpus...)` (`goicicle_wrapper.go`):
clamps an explicitly passed task cap to `[1, 512]`, defaults to
`runtime.NumCPU()` otherwise, and hands out contiguous `[start, end)`
ranges.  The model returns the list of ranges passed to the workers, in
spawn order. -/

/-- The task-count computation of `Execute`: `runtime.NumCPU()` by
default; an explicitly given cap (`len(maxCpus) == 1`) is clamped to
`[1, 512]`. -/
def clampTasks (numCPU : Nat) (maxCpus : List Int) : Nat :=
  match maxCpus with
  | [c] => if c < 1 then 1 else if c > 512 then 512 else c.toNat
  | _ => numCPU

/-- The range-generation loop of `Execute`: `k` remaining tasks, current
`start`, base chunk size `q` (`nbIterationsPerCpus`), and the remaining
`extraTasks` which each enlarge one range by one. -/
def rangesLoop : Nat → Nat → Nat → Nat → List (Nat × Nat)
  | 0, _, _, _ => []
  | k + 1, start, q, extra =>
    if 0 < extra then
      (start, start + q + 1) :: rangesLoop k (start + q + 1) q (extra - 1)
    else
      (start, start + q) :: rangesLoop k (start + q) q extra

/-- The list of `[start, end)` ranges `Execute` hands to its workers:
a single range when one task remains after clamping; otherwise chunk size
`nbIterations / nbTasks`, falling back to one iteration per task when
there are more tasks than iterations. -/
def executeRanges (nbIterations numCPU : Nat) (maxCpus : List Int) : List (Nat × Nat) :=
  let nbTasks := clampTasks numCPU maxCpus
  if nbTasks = 1 then [(0, nbIterations)]
  else
    let q := nbIterations / nbTasks
    if q < 1 then rangesLoop nbIterations 0 1 0
    else rangesLoop nbTasks 0 q (nbIterations - nbTasks * q)

/-- `j` lies in the half-open range `p`. -/
def inRange (j : Nat) (p : Nat × Nat) : Bool := decide (p.1 ≤ j ∧ j < p.2)

theorem rangesLoop_length : ∀ (k start q extra : Nat),
    (rangesLoop k start q extra).length = k
  | 0, _, _, _ => rfl
  | k + 1, start, q, extra => by
    rw [rangesLoop]
    split <;> simp [rangesLoop_length k]

theorem rangesLoop_mem : ∀ (k start q extra : Nat) (p : Nat × Nat),
    p ∈ rangesLoop k start q extra →
    start ≤ p.1 ∧ (p.2 = p.1 + q ∨ p.2 = p.1 + q + 1)
  | 0, _, _, _, _, hp => absurd hp (List.not_mem_nil _)
  | k + 1, start, q, extra, p, hp => by
    rw [rangesLoop] at hp
    split at hp <;> rcases List.mem_cons.mp hp with h | h
    · subst h; exact ⟨le_refl _, Or.inr rfl⟩
    · have := rangesLoop_mem k _ q _ p h
      exact ⟨by omega, this.2⟩
    · subst h; exact ⟨le_refl _, Or.inl rfl⟩
    · have := rangesLoop_mem k _ q _ p h
      exact ⟨by omega, this.2⟩

theorem rangesLoop_countP_zero : ∀ (k start q extra j : Nat), j < start →
    (rangesLoop k start q extra).countP (inRange j) = 0 := by
  intro k start q extra j hj
  rw [List.countP_eq_zero]
  intro p hp
  have := (rangesLoop_mem k start q extra p hp).1
  simp only [inRange, decide_eq_true_eq]
  omega

theorem rangesLoop_countP_one : ∀ (k start q extra j : Nat),
    extra ≤ k → start ≤ j → j < start + k * q + extra →
    (rangesLoop k start q extra).countP (inRange j) = 1
  | 0, start, q, extra, j, he, h1, h2 => by omega
  | k + 1, start, q, extra, j, he, h1, h2 => by
    have hkq : (k + 1) * q = k * q + q := by ring
    rw [rangesLoop]
    by_cases hex : 0 < extra
    · rw [if_pos hex, List.countP_cons]
      by_cases hj : j < start + q + 1
      · have hhead : inRange j (start, start + q + 1) = true := by
          simp only [inRange, decide_eq_true_eq]; omega
        rw [rangesLoop_countP_zero k (start + q + 1) q (extra - 1) j hj, hhead]
        simp
      · have hhead : inRange j (start, start + q + 1) = false := by
          simp only [inRange, decide_eq_false_iff_not]; omega
        rw [rangesLoop_countP_one k (start + q + 1) q (extra - 1) j (by omega)
          (by omega) (by omega), hhead]
        simp
    · rw [if_neg hex, List.countP_cons]
      have hex0 : extra = 0 := by omega
      by_cases hj : j < start + q
      · have hhead : inRange j (start, start + q) = true := by
          simp only [inRange, decide_eq_true_eq]; omega
        rw [rangesLoop_countP_zero k (start + q) q extra j hj, hhead]
        simp
      · have hhead : inRange j (start, start + q) = false := by
          simp only [inRange, decide_eq_false_iff_not]; omega
        rw [rangesLoop_countP_one k (start + q) q extra j (by omega) (by omega)
          (by omega), hhead]
        simp

theorem rangesLoop_head_fst : ∀ (k start q extra : Nat), 0 < k →
    ∃ e, (rangesLoop k start q extra).head? = some (start, e)
  | 0, _, _, _, hk => absurd hk (by omega)
  | k + 1, start, q, extra, _ => by
    rw [rangesLoop]
    split
    · exact ⟨start + q + 1, rfl⟩
    · exact ⟨start + q, rfl⟩

theorem rangesLoop_chain : ∀ (k start q extra : Nat),
    List.Chain' (fun p p' : Nat × Nat => p.2 = p'.1) (rangesLoop k start q extra)
  | 0, _, _, _ => List.chain'_nil
  | k + 1, start, q, extra => by
    rw [rangesLoop]
    split
    · rw [List.chain'_cons']
      refine ⟨?_, rangesLoop_chain k (start + q + 1) q (extra - 1)⟩
      intro b hb
      rcases Nat.eq_zero_or_pos k with hk | hk
      · subst hk; simp [rangesLoop] at hb
      · obtain ⟨e, he⟩ := rangesLoop_head_fst k (start + q + 1) q (extra - 1) hk
        rw [he] at hb
        cases hb
        rfl
    · rw [List.chain'_cons']
      refine ⟨?_, rangesLoop_chain k (start + q) q extra⟩
      intro b hb
      rcases Nat.eq_zero_or_pos k with hk | hk
      · subst hk; simp [rangesLoop] at hb
      · obtain ⟨e, he⟩ := rangesLoop_head_fst k (start + q) q extra hk
        rw [he] at hb
        cases hb
        rfl

theorem clampTasks_pos (numCPU : Nat) (maxCpus : List Int) (hcpu : 1 ≤ numCPU) :
    1 ≤ clampTasks numCPU maxCpus := by
  match maxCpus with
  | [] => exact hcpu
  | [c] =>
    show 1 ≤ (if c < 1 then 1 else if c > 512 then 512 else c.toNat)
    split
    · exact le_refl 1
    · split
      · omega
      · rename_i h1 h2
        omega
  | _ :: _ :: _ => exact hcpu

/-- The three partition properties of the range loop when it is started at
`0` with a consistent total (`k·q + extra = n`, `extra ≤ k`). -/
theorem rangesLoop_partition (k q extra n : Nat)
    (hk : extra ≤ k) (htot : k * q + extra = n) :
    List.Chain' (fun p p' : Nat × Nat => p.2 = p'.1) (rangesLoop k 0 q extra)
    ∧ (∀ p ∈ rangesLoop k 0 q extra, ∀ p' ∈ rangesLoop k 0 q extra,
        p.2 - p.1 ≤ (p'.2 - p'.1) + 1)
    ∧ (∀ j : Nat, j < n → (rangesLoop k 0 q extra).countP (inRange j) = 1) := by
  refine ⟨rangesLoop_chain k 0 q extra, ?_, ?_⟩
  · intro p hp p' hp'
    have h1 := (rangesLoop_mem k 0 q extra p hp).2
    have h2 := (rangesLoop_mem k 0 q extra p' hp').2
    rcases h1 with h1 | h1 <;> rcases h2 with h2 | h2 <;> omega
  · intro j hj
    exact rangesLoop_countP_one k 0 q extra j hk (by omega) (by omega)

/-- **C9 (amended).** For every `n ≥ 1`, every physical parallelism
`numCPU ≥ 1` and every task-cap argument: an explicitly given cap is
clamped to `[1, 512]`; with no cap the task count defaults to the
physical parallelism (without clamping); and `Execute` splits `[0, n)`
into contiguous ranges whose sizes differ by at most one, with every
iteration index handed to exactly one worker. -/
theorem execute_partition (n numCPU : Nat) (maxCpus : List Int)
    (hn : 1 ≤ n) (hcpu : 1 ≤ numCPU) :
    (∀ c : Int, maxCpus = [c] →
        1 ≤ clampTasks numCPU maxCpus ∧ clampTasks numCPU maxCpus ≤ 512)
    ∧ (maxCpus = [] → clampTasks numCPU maxCpus = numCPU)
    ∧ List.Chain' (fun p p' : Nat × Nat => p.2 = p'.1) (executeRanges n numCPU maxCpus)
    ∧ (∀ p ∈ executeRanges n numCPU maxCpus, ∀ p' ∈ executeRanges n numCPU maxCpus,
        p.2 - p.1 ≤ (p'.2 - p'.1) + 1)
    ∧ (∀ j : Nat, j < n → (executeRanges n numCPU maxCpus).countP (inRange j) = 1) := by
  refine ⟨?_, ?_, ?_⟩
  · intro c hc
    subst hc
    show 1 ≤ (if c < 1 then 1 else if c > 512 then 512 else c.toNat)
      ∧ (if c < 1 then 1 else if c > 512 then 512 else c.toNat) ≤ 512
    split
    · omega
    · split
      · omega
      · rename_i h1 h2
        constructor <;> omega
  · intro hc
    subst hc
    rfl
  · by_cases hT1 : clampTasks numCPU maxCpus = 1
    · have hre : executeRanges n numCPU maxCpus = [(0, n)] := by
        simp only [executeRanges]
        rw [if_pos hT1]
      rw [hre]
      refine ⟨List.chain'_singleton _, ?_, ?_⟩
      · intro p hp p' hp'
        simp only [List.mem_singleton] at hp hp'
        subst hp; subst hp'
        omega
      · intro j hj
        have hhead : inRange j (0, n) = true := by
          simp only [inRange, decide_eq_true_eq]
          omega
        rw [List.countP_cons, List.countP_nil, hhead]
        simp
    · by_cases hq : n / clampTasks numCPU maxCpus < 1
      · have hre : executeRanges n numCPU maxCpus = rangesLoop n 0 1 0 := by
          simp only [executeRanges]
          rw [if_neg hT1, if_pos hq]
        rw [hre]
        exact rangesLoop_partition n 1 0 n (by omega) (by omega)
      · have hre : executeRanges n numCPU maxCpus
            = rangesLoop (clampTasks numCPU maxCpus) 0
                (n / clampTasks numCPU maxCpus)
                (n - clampTasks numCPU maxCpus * (n / clampTasks numCPU maxCpus)) := by
          simp only [executeRanges]
          rw [if_neg hT1, if_neg hq]
        rw [hre]
        have hTpos : 1 ≤ clampTasks numCPU maxCpus := clampTasks_pos numCPU maxCpus hcpu
        have hmod := Nat.mod_add_div n (clampTasks numCPU maxCpus)
        have hmodlt : n % clampTasks numCPU maxCpus < clampTasks numCPU maxCpus :=
          Nat.mod_lt n (by omega)
        exact rangesLoop_partition _ _ _ n (by omega) (by omega)

theorem execute_partition_witness :
    (1 ≤ 7 ∧ 1 ≤ 3)
    ∧ ((∀ c : Int, ([2] : List Int) = [c] →
          1 ≤ clampTasks 3 [2] ∧ clampTasks 3 [2] ≤ 512)
      ∧ (([2] : List Int) = [] → clampTasks 3 [2] = 3)
      ∧ List.Chain' (fun p p' : Nat × Nat => p.2 = p'.1) (executeRanges 7 3 [2])
      ∧ (∀ p ∈ executeRanges 7 3 [2], ∀ p' ∈ executeRanges 7 3 [2],
          p.2 - p.1 ≤ (p'.2 - p'.1) + 1)
      ∧ (∀ j : Nat, j < 7 → (executeRanges 7 3 [2]).countP (inRange j) = 1)) :=
  ⟨⟨by decide, by decide⟩, execute_partition 7 3 [2] (by decide) (by decide)⟩

/-- **C9 counterexample.** With no explicit cap and a physical parallelism
of 513 CPUs, `Execute` keeps all 513 tasks: the task count is not clamped
to `[1, 512]`, refuting the claim that the number of tasks is always
clamped to that range. -/
theorem execute_clamp_counterexample :
    clampTasks 513 [] = 513
    ∧ (executeRanges 513 513 []).length = 513
    ∧ ¬ (executeRanges 513 513 []).length ≤ 512 := by
  have h : executeRanges 513 513 [] = rangesLoop 513 0 1 0 := by
    have hc : clampTasks 513 [] = 513 := rfl
    simp only [executeRanges]
    rw [hc]
    norm_num
  refine ⟨rfl, ?_, ?_⟩
  · rw [h, rangesLoop_length]
  · rw [h, rangesLoop_length]
    omega

/-! ## Device primitive statuses and the prover pipeline

`NttOnDevice` and `PolyOps` (`backend/groth16/bn254/goicicle_wrapper.go`)
check the integer status returned by `icicle.Evaluate`,
`icicle.VecScalarMulMod` and `icicle.VecScalarSub`, but only print a
message on a nonzero status: no error is returned to the caller.  The
models therefore return the list of printed messages — that list is the
entire observable effect of a failing primitive. -/

/-- `NttOnDevice` (wrapper lines 50–67): `icicle.Evaluate` then
`ReverseScalars`; a nonzero `Evaluate` status only prints
`"Issue evaluating"` and execution continues. -/
def NttOnDevice (evaluateStatus : Int) : List String :=
  if evaluateStatus ≠ 0 then ["Issue evaluating"] else []

/-- `PolyOps` (wrapper lines 69–93): `a ← a·b`, `a ← a − c`,
`a ← a·den`; each nonzero status only prints a message. -/
def PolyOps (mulABStatus subACStatus mulDenStatus : Int) : List String :=
  (if mulABStatus ≠ 0 then ["Vector mult a*b issue"] else [])
    ++ (if subACStatus ≠ 0 then ["Vector sub issue"] else [])
    ++ (if mulDenStatus ≠ 0 then ["Vector mult a*den issue"] else [])

/-- The statuses returned by the device primitives during one `computeH`
run: one `Evaluate` status per coset NTT of `a`, `b`, `c`, and the three
vector-op statuses of `PolyOps`. -/
structure DeviceStatuses where
  evaluateA : Int
  evaluateB : Int
  evaluateC : Int
  vecMulAB : Int
  vecSubAC : Int
  vecMulDen : Int

/-- The messages printed during `computeH` (generated prover lines
331–463): three `NttOnDevice` coset evaluations and one `PolyOps`.
`computeH` itself returns only a device pointer — it has no error
component at all. -/
def computeHLog (st : DeviceStatuses) : List String :=
  NttOnDevice st.evaluateA ++ NttOnDevice st.evaluateB ++ NttOnDevice st.evaluateC
    ++ PolyOps st.vecMulAB st.vecSubAC st.vecMulDen

/-- The index-removal loop of the prover's `filter` (generated prover
lines 311–329): walk `slice` with index `i`, skipping the indices listed
(sorted) in `toRemove`. -/
def filterGoLoop {α : Type} : List α → Nat → List Nat → List α
  | [], _, _ => []
  | x :: xs, i, [] => x :: filterGoLoop xs (i + 1) []
  | x :: xs, i, r :: rest =>
    if i = r then filterGoLoop xs (i + 1) rest
    else x :: filterGoLoop xs (i + 1) (r :: rest)

/-- `filter(slice, toRemove)`: identity when `toRemove` is empty. -/
def filter {α : Type} (slice : List α) (toRemove : List Nat) : List α :=
  if toRemove.isEmpty then slice else filterGoLoop slice 0 toRemove

/-- A Groth16 proof as assembled by the model prover. -/
structure ProofM (G G2e : Type) where
  Ar : G
  Krs : G
  Bs : G2e

/-- Abstract device MSM oracles: the G1 MSM results as functions of their
scalar vectors (the point bases are fixed by the proving key), the `Krs₂`
MSM result (whose scalar input is the on-device `H` vector), and the
fallible G2 `MultiExp` of `computeBS2` — the only MSM whose error the
source checks. -/
structure MsmOracles (G G2e : Type) where
  msmA : List Fr → G
  msmB : List Fr → G
  msmK : List Fr → G
  msmZ : G
  msmB2 : List Fr → Except String G2e

/-- Model of `Prove` after witness solving (generated prover lines
103–306): the infinity filters (an out-of-range read, a Go panic, is
`none`), the blinding scalars, the four MSMs with their blinding
additions, and the final `computeBS2`.  The result pairs the prover's
`Except` outcome with the list of messages printed by the `computeH`
pipeline; device statuses influence only the latter. -/
def ProveM {G G2e : Type} [AddCommGroup G] [Module Fr G]
    [AddCommGroup G2e] [Module Fr G2e]
    (pk : PkG1 G) (beta2 delta2 : G2e)
    (wireValues : List Fr) (infinityA infinityB : List Bool)
    (nbInfinityA nbInfinityB : Nat)
    (privateToPublic : List Nat) (nbPublicVariables : Nat)
    (r s : Fr) (st : DeviceStatuses) (o : MsmOracles G G2e) :
    Option (Except String (ProofM G G2e) × List String) :=
  let hLog := computeHLog st
  match filterInfinityLoop wireValues infinityA (wireValues.length - nbInfinityA),
        filterInfinityLoop wireValues infinityB (wireValues.length - nbInfinityB) with
  | some wireValuesA, some wireValuesB =>
    let kr := proveKr r s
    let deltas := batchScalarMultiplicationG1 pk.Delta [r, s, kr]
    let bs1 := o.msmB wireValuesB + pk.Beta + deltas.getD 1 0
    let ar := o.msmA wireValuesA + pk.Alpha + deltas.getD 0 0
    let scals := (filter wireValues privateToPublic).drop nbPublicVariables
    let krs := o.msmK scals + deltas.getD 2 0 + o.msmZ + s • ar + r • bs1
    match o.msmB2 wireValuesB with
    | .error e => some (.error e, hLog)
    | .ok bs2 => some (.ok { Ar := ar, Krs := krs, Bs := bs2 + s • delta2 + beta2 }, hLog)
  | _, _ => none

/-- All six primitive statuses nonzero. -/
def statusAllOne : DeviceStatuses := ⟨1, 1, 1, 1, 1, 1⟩

/-- Trivial oracles over the one-point group. -/
def trivialOracles : MsmOracles Unit Unit where
  msmA := fun _ => ()
  msmB := fun _ => ()
  msmK := fun _ => ()
  msmZ := ()
  msmB2 := fun _ => .ok ()

/-- The `Except` outcome of `ProveM` does not depend on the device
statuses: only the printed log does. -/
theorem proveM_outcome_ignores_status {G G2e : Type}
    [AddCommGroup G] [Module Fr G] [AddCommGroup G2e] [Module Fr G2e]
    (pk : PkG1 G) (beta2 delta2 : G2e)
    (wireValues : List Fr) (infinityA infinityB : List Bool)
    (nbInfinityA nbInfinityB : Nat)
    (privateToPublic : List Nat) (nbPublicVariables : Nat)
    (r s : Fr) (st st' : DeviceStatuses) (o : MsmOracles G G2e) :
    (ProveM pk beta2 delta2 wireValues infinityA infinityB nbInfinityA nbInfinityB
        privateToPublic nbPublicVariables r s st o).map Prod.fst
      = (ProveM pk beta2 delta2 wireValues infinityA infinityB nbInfinityA nbInfinityB
          privateToPublic nbPublicVariables r s st' o).map Prod.fst := by
  unfold ProveM
  rcases filterInfinityLoop wireValues infinityA (wireValues.length - nbInfinityA) with
    _ | wvA
  · rfl
  rcases filterInfinityLoop wireValues infinityB (wireValues.length - nbInfinityB) with
    _ | wvB
  · rfl
  simp only []
  rcases o.msmB2 wvB with e | bs2 <;> rfl

/-- **C4 (refuted by the code).** Every device primitive of one
`computeH` run returns a nonzero status (`statusAllOne`), yet the prover
completes normally: `ProveM` returns `.ok` with an assembled proof, and
the only trace of the six failures is the printed messages.  No
`ntt-error`/`msm-error` is surfaced to the caller, contradicting the
claim (and §7 of the specification). -/
theorem prove_ignores_nonzero_status :
    ProveM (⟨(), (), ()⟩ : PkG1 Unit) () ()
        [] [] [] 0 0 [] 0 0 0 statusAllOne trivialOracles
      = some (.ok ⟨(), (), ()⟩,
          ["Issue evaluating", "Issue evaluating", "Issue evaluating",
           "Vector mult a*b issue", "Vector sub issue", "Vector mult a*den issue"]) :=
  rfl

/-! ## Prover scheduling: the H channel join

`Prove` spawns the `computeH` goroutine (which signals on the one-shot
channel `chHDone`), the two wire-filter goroutines (which close
`chWireValuesA`/`chWireValuesB`), samples the blinding randomness, then
executes `<-chHDone` *before* calling `computeBS1`, `computeAR1`,
`computeKRS` and `computeBS2` in sequence (generated prover lines
108–301).  The model is a small-step scheduler over the four tasks; a
channel receive is enabled only after the matching send/close has been
emitted.  `msmKRS2` is the `Krs₂` MSM over `pk.G1.Z` that reads the `H`
device pointer. -/

/-- The events of one `Prove` invocation relevant to scheduling. -/
inductive PEvent
  | hComputed
  | hSend
  | filterASend
  | filterBSend
  | sampleRS
  | hRecv
  | wBRecv1
  | msmBS1
  | wARecv
  | msmAR1
  | msmKRS2
  | msmKRS
  | wBRecv2
  | msmBS2
  deriving DecidableEq

/-- The `computeH` goroutine: compute `H`, then `chHDone <- struct{}{}`. -/
def hTask : List PEvent := [.hComputed, .hSend]

/-- The `wireValuesA` filter goroutine: `close(chWireValuesA)`. -/
def filterATask : List PEvent := [.filterASend]

/-- The `wireValuesB` filter goroutine: `close(chWireValuesB)`. -/
def filterBTask : List PEvent := [.filterBSend]

/-- The main goroutine: randomness sampling, `<-chHDone`, then the four
proof computations in program order (each `computeXX` first awaits its
wire-filter channel). -/
def mainTask : List PEvent :=
  [.sampleRS, .hRecv, .wBRecv1, .msmBS1, .wARecv, .msmAR1, .msmKRS2, .msmKRS,
   .wBRecv2, .msmBS2]

/-- Remaining programs of the four tasks. -/
structure SchedState where
  hT : List PEvent
  aT : List PEvent
  bT : List PEvent
  mT : List PEvent

/-- Channel semantics: a receive fires only after the matching send
(`chHDone`) or close (`chWireValuesA`/`chWireValuesB`; a closed channel
stays receivable, hence `wBRecv2`). -/
def enabled (tr : List PEvent) : PEvent → Bool
  | .hRecv => decide (PEvent.hSend ∈ tr)
  | .wARecv => decide (PEvent.filterASend ∈ tr)
  | .wBRecv1 => decide (PEvent.filterBSend ∈ tr)
  | .wBRecv2 => decide (PEvent.filterBSend ∈ tr)
  | _ => true

/-- Reachable (trace, state) pairs: any interleaving of the four tasks in
which every step is enabled at the moment it is taken. -/
inductive ProveSched : List PEvent → SchedState → Prop
  | init : ProveSched [] ⟨hTask, filterATask, filterBTask, mainTask⟩
  | stepH {tr e rest a b m} : ProveSched tr ⟨e :: rest, a, b, m⟩ →
      enabled tr e = true → ProveSched (tr ++ [e]) ⟨rest, a, b, m⟩
  | stepA {tr e h rest b m} : ProveSched tr ⟨h, e :: rest, b, m⟩ →
      enabled tr e = true → ProveSched (tr ++ [e]) ⟨h, rest, b, m⟩
  | stepB {tr e h a rest m} : ProveSched tr ⟨h, a, e :: rest, m⟩ →
      enabled tr e = true → ProveSched (tr ++ [e]) ⟨h, a, rest, m⟩
  | stepM {tr e h a b rest} : ProveSched tr ⟨h, a, b, e :: rest⟩ →
      enabled tr e = true → ProveSched (tr ++ [e]) ⟨h, a, b, rest⟩

/-- Extending a trace preserves an existing `msmKRS2`-split. -/
theorem split_extend {tr : List PEvent} (e : PEvent)
    (h : ∃ t1 t2, tr = t1 ++ PEvent.msmKRS2 :: t2 ∧ PEvent.hSend ∈ t1) :
    ∃ t1 t2, tr ++ [e] = t1 ++ PEvent.msmKRS2 :: t2 ∧ PEvent.hSend ∈ t1 := by
  obtain ⟨t1, t2, heq, hmem⟩ := h
  refine ⟨t1, t2 ++ [e], ?_, hmem⟩
  rw [heq]
  simp

/-- The scheduling invariant: each remaining program is a suffix of its
task; `hSend` has been emitted iff the H task is done; `hRecv` has been
emitted iff the main task has consumed it (at most 8 events left); a
receive implies its send; and any emitted `msmKRS2` is preceded by
`hSend`. -/
theorem proveSched_invariant {tr : List PEvent} {st : SchedState}
    (h : ProveSched tr st) :
    st.hT <:+ hTask ∧ st.aT <:+ filterATask ∧ st.bT <:+ filterBTask
      ∧ st.mT <:+ mainTask
      ∧ (PEvent.hSend ∈ tr ↔ st.hT = [])
      ∧ (PEvent.hRecv ∈ tr ↔ st.mT.length ≤ 8)
      ∧ (PEvent.hRecv ∈ tr → PEvent.hSend ∈ tr)
      ∧ (PEvent.msmKRS2 ∈ tr →
          ∃ t1 t2, tr = t1 ++ PEvent.msmKRS2 :: t2 ∧ PEvent.hSend ∈ t1) := by
  induction h with
  | init =>
    refine ⟨List.suffix_refl _, List.suffix_refl _, List.suffix_refl _,
      List.suffix_refl _, ?_, ?_, ?_, ?_⟩ <;> simp [hTask, mainTask]
  | stepH hprev hen ih =>
    obtain ⟨ihH, ihA, ihB, ihM, ihSend, ihRecv, ihImp, ihSplit⟩ := ih
    dsimp only at ihH ihA ihB ihM ihSend ihRecv
    have hcases : _ ∈ hTask.tails := (List.mem_tails _ _).mpr ihH
    simp [hTask, List.tails] at hcases
    rcases hcases with ⟨he, hrest⟩ | ⟨he, hrest⟩ <;> subst he <;> subst hrest <;>
      refine ⟨(List.suffix_cons _ _).trans ihH, ihA, ihB, ihM, ?_, ?_, ?_, ?_⟩ <;>
      dsimp only <;>
      first
      | (constructor
         · intro hmem
           rcases List.mem_append.mp hmem with hmem | hmem
           · exact absurd (ihSend.mp hmem) (by decide)
           · first
             | exact absurd (List.mem_singleton.mp hmem) (by decide)
             | rfl
         · intro hmem
           first
           | exact List.mem_append.mpr (Or.inr (List.mem_singleton.mpr rfl))
           | exact absurd hmem (by decide))
      | (constructor
         · intro hmem
           rcases List.mem_append.mp hmem with hmem | hmem
           · exact ihRecv.mp hmem
           · exact absurd (List.mem_singleton.mp hmem) (by decide)
         · intro hlen
           exact List.mem_append.mpr (Or.inl (ihRecv.mpr hlen)))
      | (intro hmem
         rcases List.mem_append.mp hmem with hmem | hmem
         · exact List.mem_append.mpr (Or.inl (ihImp hmem))
         · exact absurd (List.mem_singleton.mp hmem) (by decide))
      | (intro hmem
         rcases List.mem_append.mp hmem with hmem | hmem
         · exact split_extend _ (ihSplit hmem)
         · exact absurd (List.mem_singleton.mp hmem) (by decide))
  | stepA hprev hen ih =>
    obtain ⟨ihH, ihA, ihB, ihM, ihSend, ihRecv, ihImp, ihSplit⟩ := ih
    dsimp only at ihH ihA ihB ihM ihSend ihRecv
    have hcases : _ ∈ filterATask.tails := (List.mem_tails _ _).mpr ihA
    simp [filterATask, List.tails] at hcases
    obtain ⟨he, hrest⟩ := hcases
    subst he; subst hrest
    refine ⟨ihH, (List.suffix_cons _ _).trans ihA, ihB, ihM, ?_, ?_, ?_, ?_⟩ <;>
      dsimp only <;>
      first
      | (constructor
         · intro hmem
           rcases List.mem_append.mp hmem with hmem | hmem
           · exact ihSend.mp hmem
           · exact absurd (List.mem_singleton.mp hmem) (by decide)
         · intro hmem
           exact List.mem_append.mpr (Or.inl (ihSend.mpr hmem)))
      | (constructor
         · intro hmem
           rcases List.mem_append.mp hmem with hmem | hmem
           · exact ihRecv.mp hmem
           · exact absurd (List.mem_singleton.mp hmem) (by decide)
         · intro hlen
           exact List.mem_append.mpr (Or.inl (ihRecv.mpr hlen)))
      | (intro hmem
         rcases List.mem_append.mp hmem with hmem | hmem
         · exact List.mem_append.mpr (Or.inl (ihImp hmem))
         · exact absurd (List.mem_singleton.mp hmem) (by decide))
      | (intro hmem
         rcases List.mem_append.mp hmem with hmem | hmem
         · exact split_extend _ (ihSplit hmem)
         · exact absurd (List.mem_singleton.mp hmem) (by decide))
  | stepB hprev hen ih =>
    obtain ⟨ihH, ihA, ihB, ihM, ihSend, ihRecv, ihImp, ihSplit⟩ := ih
    dsimp only at ihH ihA ihB ihM ihSend ihRecv
    have hcases : _ ∈ filterBTask.tails := (List.mem_tails _ _).mpr ihB
    simp [filterBTask, List.tails] at hcases
    obtain ⟨he, hrest⟩ := hcases
    subst he; subst hrest
    refine ⟨ihH, ihA, (List.suffix_cons _ _).trans ihB, ihM, ?_, ?_, ?_, ?_⟩ <;>
      dsimp only <;>
      first
      | (constructor
         · intro hmem
           rcases List.mem_append.mp hmem with hmem | hmem
           · exact ihSend.mp hmem
           · exact absurd (List.mem_singleton.mp hmem) (by decide)
         · intro hmem
           exact List.mem_append.mpr (Or.inl (ihSend.mpr hmem)))
      | (constructor
         · intro hmem
           rcases List.mem_append.mp hmem with hmem | hmem
           · exact ihRecv.mp hmem
           · exact absurd (List.mem_singleton.mp hmem) (by decide)
         · intro hlen
           exact List.mem_append.mpr (Or.inl (ihRecv.mpr hlen)))
      | (intro hmem
         rcases List.mem_append.mp hmem with hmem | hmem
         · exact List.mem_append.mpr (Or.inl (ihImp hmem))
         · exact absurd (List.mem_singleton.mp hmem) (by decide))
      | (intro hmem
         rcases List.mem_append.mp hmem with hmem | hmem
         · exact split_extend _ (ihSplit hmem)
         · exact absurd (List.mem_singleton.mp hmem) (by decide))
  | stepM hprev hen ih =>
    obtain ⟨ihH, ihA, ihB, ihM, ihSend, ihRecv, ihImp, ihSplit⟩ := ih
    dsimp only at ihH ihA ihB ihM ihSend ihRecv
    have hcases : _ ∈ mainTask.tails := (List.mem_tails _ _).mpr ihM
    simp [mainTask, List.tails] at hcases
    rcases hcases with ⟨he, hrest⟩ | ⟨he, hrest⟩ | ⟨he, hrest⟩ | ⟨he, hrest⟩
      | ⟨he, hrest⟩ | ⟨he, hrest⟩ | ⟨he, hrest⟩ | ⟨he, hrest⟩ | ⟨he, hrest⟩
      | ⟨he, hrest⟩ <;> subst he <;> subst hrest <;>
      refine ⟨ihH, ihA, ihB, (List.suffix_cons _ _).trans ihM, ?_, ?_, ?_, ?_⟩ <;>
      dsimp only <;>
      first
      | (constructor
         · intro hmem
           rcases List.mem_append.mp hmem with hmem | hmem
           · exact ihSend.mp hmem
           · exact absurd (List.mem_singleton.mp hmem) (by decide)
         · intro hmem
           exact List.mem_append.mpr (Or.inl (ihSend.mpr hmem)))
      | (constructor
         · intro hmem
           rcases List.mem_append.mp hmem with hmem | hmem
           · first
             | decide
             | exact absurd (ihRecv.mp hmem) (by decide)
           · first
             | exact absurd (List.mem_singleton.mp hmem) (by decide)
             | decide
         · intro hlen
           first
           | exact List.mem_append.mpr (Or.inr (List.mem_singleton.mpr rfl))
           | exact List.mem_append.mpr (Or.inl (ihRecv.mpr (by decide)))
           | exact absurd hlen (by decide))
      | (intro hmem
         rcases List.mem_append.mp hmem with hmem | hmem
         · exact List.mem_append.mpr (Or.inl (ihImp hmem))
         · first
           | exact absurd (List.mem_singleton.mp hmem) (by decide)
           | exact List.mem_append.mpr (Or.inl (of_decide_eq_true hen)))
      | (intro hmem
         rcases List.mem_append.mp hmem with hmem | hmem
         · exact split_extend _ (ihSplit hmem)
         · first
           | exact absurd (List.mem_singleton.mp hmem) (by decide)
           | exact ⟨_, [], rfl, ihImp (ihRecv.mpr (by decide))⟩)

/-- **C7.** In every schedule of the prover's tasks that respects the
channel semantics, the `Krs₂` MSM over `pk.G1.Z` (event `msmKRS2`, which
reads the `H` device pointer) occurs only strictly after the `computeH`
task has signalled completion on its one-shot channel (event `hSend`):
every reachable trace containing `msmKRS2` splits as
`t1 ++ msmKRS2 :: t2` with `hSend ∈ t1`.  The `hRecv` join on that channel
is the only synchronization between the H pipeline and the MSMs in the
model. -/
theorem krs2_msm_after_h_signal {tr : List PEvent} {st : SchedState}
    (h : ProveSched tr st) (hmem : PEvent.msmKRS2 ∈ tr) :
    ∃ t1 t2, tr = t1 ++ PEvent.msmKRS2 :: t2 ∧ PEvent.hSend ∈ t1 :=
  (proveSched_invariant h).2.2.2.2.2.2.2 hmem

theorem krs2_msm_after_h_signal_witness :
    ∃ t1 t2,
      ([PEvent.hComputed, PEvent.hSend, PEvent.filterASend, PEvent.filterBSend,
        PEvent.sampleRS, PEvent.hRecv, PEvent.wBRecv1, PEvent.msmBS1,
        PEvent.wARecv, PEvent.msmAR1, PEvent.msmKRS2] : List PEvent)
        = t1 ++ PEvent.msmKRS2 :: t2 ∧ PEvent.hSend ∈ t1 := by
  have s0 : ProveSched [] ⟨hTask, filterATask, filterBTask, mainTask⟩ :=
    ProveSched.init
  have s1 := ProveSched.stepH s0 (by decide)
  have s2 := ProveSched.stepH s1 (by decide)
  have s3 := ProveSched.stepA s2 (by decide)
  have s4 := ProveSched.stepB s3 (by decide)
  have s5 := ProveSched.stepM s4 (by decide)
  have s6 := ProveSched.stepM s5 (by decide)
  have s7 := ProveSched.stepM s6 (by decide)
  have s8 := ProveSched.stepM s7 (by decide)
  have s9 := ProveSched.stepM s8 (by decide)
  have s10 := ProveSched.stepM s9 (by decide)
  have s11 := ProveSched.stepM s10 (by decide)
  exact krs2_msm_after_h_signal s11 (by decide)

end CelerGnark
